import Mathlib

/-!
Verification of the LSP command subsystem of helix-term (src/helix-term/src/commands/lsp.rs).

This file gives a shallow embedding of the data model and the pure logic of that
module, and proves properties of it:

* the ordered aggregation of per-language-server result batches
  (the FuturesOrdered + try_next drain loop used by symbol_picker,
  symbol_method_picker, workspace_symbol_picker and code_action);
* language-server deduplication by id (the seen_language_servers HashSet filter);
* the code-action category / relevance comparator and the per-batch stable sort;
* the nested-to-flat document-symbol conversion (pre-order traversal);
* the terminal-width factor of symbol_method_picker;
* the inlay-hint window computation, the window-identity cache check of
  compute_inlay_hints_for_view, and the response bucketing loop.

Machine integers (u16, u32, usize) are modelled as Nat: every arithmetic
operation performed by the code on them is either saturating or bounded far
below the wraparound threshold, so the Nat semantics coincide.  Rust's
saturating_sub on usize is Nat subtraction; saturating_add and saturating_mul
saturate only at usize::MAX which is unreachable for line counts, so they are
Nat addition and multiplication.  f32 constants (0.38, 0.4, 0.42) are modelled
as the rationals 38/100, 40/100, 42/100, which are ordered the same way as
their f32 roundings.  Rust's stable Vec::sort_by is modelled by insertion sort
(List.insertionSort), which is a stable sorting algorithm; sort_unstable_by_key
is likewise modelled by insertion sort (any sorting algorithm is a faithful
model of an unspecified unstable sort for the properties proved here).
-/

namespace HelixLsp

/-! ### Basic LSP data model -/

/-- lsp::Position: a zero-based (line, character) pair.  Ordered
lexicographically (the derived Ord of the lsp-types crate). -/
structure LspPos where
  line : Nat
  character : Nat
deriving DecidableEq

/-- lsp::Range: a start and an end position. -/
structure LspRange where
  start : LspPos
  «end» : LspPos
deriving DecidableEq

/-- helix_lsp::OffsetEncoding: the per-server unit convention for positions. -/
inductive OffsetEncoding where
  | utf8
  | utf16
  | utf32
deriving DecidableEq

/-! ### Ordered aggregation (FuturesOrdered + try_next drain)

symbol_picker, symbol_method_picker and code_action all build a
FuturesOrdered of per-server futures, each yielding
anyhow::Result of a Vec of items, and then run

  while let Some(mut lsp_items) = futures.try_next().await? {
      acc.append(&mut lsp_items);
  }

FuturesOrdered yields results in submission order regardless of completion
order.  The drain is modelled as a function of the submission-ordered list of
per-future results: on the first error (in submission order) the surrounding
async block returns that error, discarding the accumulator. -/

/-- The try_next drain loop over submission-ordered per-future results. -/
def aggregate {ε β : Type} : List (Except ε (List β)) → Except ε (List β)
  | [] => Except.ok []
  | Except.error e :: _ => Except.error e
  | Except.ok items :: rest =>
    match aggregate rest with
    | Except.error e => Except.error e
    | Except.ok acc => Except.ok (items ++ acc)

/-- A language server handle together with the result batch its (successful)
request would produce.  The id models helix_lsp::LanguageServerId. -/
structure LanguageServerHandle (β : Type) where
  id : Nat
  batch : List β

/-- The filter  .filter(|ls| seen_language_servers.insert(ls.id()))  applied to
the attachment-ordered server list: keeps a server iff its id was not seen
before, i.e. keeps the first occurrence of each id.  The HashSet of seen ids is
modelled as a list. -/
def dedup_language_servers {β : Type} (seen : List Nat) :
    List (LanguageServerHandle β) → List (LanguageServerHandle β)
  | [] => []
  | ls :: rest =>
    if ls.id ∈ seen then dedup_language_servers seen rest
    else ls :: dedup_language_servers (ls.id :: seen) rest

/-- Submission order on completion events: an event is a pair of the
submission index of the future and its payload. -/
def submission_le {γ : Type} (a b : Nat × γ) : Prop := a.1 ≤ b.1

instance {γ : Type} : DecidableRel (@submission_le γ) :=
  fun a b => inferInstanceAs (Decidable (a.1 ≤ b.1))

/-- Model of FuturesOrdered: the futures complete in an arbitrary order
(`completed` is the list of (submission index, payload) events in completion
order), and the stream re-emits the payloads in submission order. -/
def emit_submission_order {γ : Type} (completed : List (Nat × γ)) : List γ :=
  (completed.insertionSort submission_le).map Prod.snd

/-! ### Code actions -/

/-- lsp::Diagnostic, as referenced by a code action.  Only its presence
matters to the ranking code; payload fields other than the message are
omitted. -/
structure LspDiagnostic where
  message : String
deriving DecidableEq

/-- lsp::CodeActionOrCommand.  A bare command carries no kind, diagnostics,
preference or disablement; a code action carries the fields the ranking and
filtering code reads (title, kind, diagnostics, is_preferred, disabled).
Payload fields not read by this module (edit, command, data) are omitted. -/
inductive CodeActionOrCommand where
  | command (title : String)
  | codeAction (title : String) (kind : Option String)
      (diagnostics : Option (List LspDiagnostic))
      (is_preferred : Option Bool) (disabled : Option String)
deriving DecidableEq

/-- Rust's str::split('.') on the character list of a string: splits at every
dot, keeping empty segments, and yields at least one segment. -/
def split_char (sep : Char) : List Char → List (List Char)
  | [] => [[]]
  | c :: rest =>
    if c = sep then [] :: split_char sep rest
    else
      match split_char sep rest with
      | [] => [[c]]
      | seg :: segs => (c :: seg) :: segs

/-- kind.as_str().split('.') as a list of strings. -/
def split_dot (kind : String) : List String :=
  (split_char '.' kind.toList).map fun cs => cs.asString

/-- action_category: the category rank of a code action, derived from the
dot-delimited kind string (lsp.rs lines 744-766).  components.next() is the
head of the split; the second components.next() is the head of its tail. -/
def action_category (action : CodeActionOrCommand) : Nat :=
  match action with
  | CodeActionOrCommand.codeAction _ (some kind) _ _ _ =>
    let components := split_dot kind
    match components.head? with
    | some "quickfix" => 0
    | some "refactor" =>
      (match components.tail.head? with
       | some "extract" => 1
       | some "inline" => 2
       | some "rewrite" => 3
       | some "move" => 4
       | some "surround" => 5
       | _ => 7)
    | some "source" => 6
    | _ => 7
  | _ => 7

/-- action_preferred: whether the action is marked is_preferred: Some(true). -/
def action_preferred (action : CodeActionOrCommand) : Bool :=
  match action with
  | CodeActionOrCommand.codeAction _ _ _ (some true) _ => true
  | _ => false

/-- action_fixes_diagnostics: whether the action names a non-empty diagnostics
list. -/
def action_fixes_diagnostics (action : CodeActionOrCommand) : Bool :=
  match action with
  | CodeActionOrCommand.codeAction _ _ (some diagnostics) _ _ => !diagnostics.isEmpty
  | _ => false

/-- The comparator passed to actions.sort_by in code_action (lsp.rs lines
848-871): category ascending, then fixes-a-diagnostic descending (reverse of
the Bool order false < true), then is_preferred descending. -/
def action_cmp (a1 a2 : CodeActionOrCommand) : Ordering :=
  let order := compare (action_category a1) (action_category a2)
  if order ≠ Ordering.eq then order
  else
    let order := (compare (action_fixes_diagnostics a1) (action_fixes_diagnostics a2)).swap
    if order ≠ Ordering.eq then order
    else (compare (action_preferred a1) (action_preferred a2)).swap

/-- The non-strict order induced by the comparator (a1 sorts no later than
a2). -/
def action_le (a1 a2 : CodeActionOrCommand) : Prop :=
  action_cmp a1 a2 ≠ Ordering.gt

instance : DecidableRel action_le :=
  fun a1 a2 => inferInstanceAs (Decidable (action_cmp a1 a2 ≠ Ordering.gt))

/-- The three-level sort key named by the specification: category, then
does-not-fix-a-diagnostic, then not-preferred — each ascending, most
significant first.  (Negations make True sort before False, as the spec's
tie-breaks demand.) -/
def action_sort_key (a : CodeActionOrCommand) : Nat × Nat × Nat :=
  (action_category a, (!action_fixes_diagnostics a).toNat, (!action_preferred a).toNat)

/-- Lexicographic order on three-level keys, most significant first. -/
def key_le (x y : Nat × Nat × Nat) : Prop :=
  x.1 < y.1 ∨ (x.1 = y.1 ∧ (x.2.1 < y.2.1 ∨ (x.2.1 = y.2.1 ∧ x.2.2 ≤ y.2.2)))

instance : DecidableRel key_le :=
  fun x y => inferInstanceAs
    (Decidable (x.1 < y.1 ∨ (x.1 = y.1 ∧ (x.2.1 < y.2.1 ∨ (x.2.1 = y.2.1 ∧ x.2.2 ≤ y.2.2)))))

/-- The  actions.retain(..)  step: drop code actions whose disabled field is
set; bare commands are never disabled. -/
def retain_enabled (actions : List CodeActionOrCommand) : List CodeActionOrCommand :=
  actions.filter fun action =>
    match action with
    | CodeActionOrCommand.command _ => true
    | CodeActionOrCommand.codeAction _ _ _ _ disabled => disabled.isNone

/-- The decoded response of one server before sorting: a missing payload (None)
contributes no actions, otherwise the disabled actions are dropped. -/
def retained_actions (response : Option (List CodeActionOrCommand)) :
    List CodeActionOrCommand :=
  match response with
  | none => []
  | some actions => retain_enabled actions

/-- The per-server processing done inside each code_action future: decode,
drop disabled actions, then stable-sort by the comparator. -/
def process_code_actions (response : Option (List CodeActionOrCommand)) :
    List CodeActionOrCommand :=
  (retained_actions response).insertionSort action_le

/-- CodeActionOrCommandItem: an action tagged with the id of the server that
produced it. -/
structure CodeActionOrCommandItem where
  lsp_item : CodeActionOrCommand
  language_server_id : Nat
deriving DecidableEq

/-- One code-action server in submission order: its id and the outcome of its
request (transport/decode failure, or a decoded optional action list). -/
structure CodeActionServer where
  ls_id : Nat
  response : Except String (Option (List CodeActionOrCommand))

/-- The body of one per-server code_action future: propagate the failure, or
process the response and tag each action with the server id. -/
def code_action_future (s : CodeActionServer) :
    Except String (List CodeActionOrCommandItem) :=
  match s.response with
  | Except.error e => Except.error e
  | Except.ok response =>
    Except.ok ((process_code_actions response).map
      fun a => { lsp_item := a, language_server_id := s.ls_id })

/-- The merged code-action list: the try_next drain over all per-server
futures in submission order. -/
def code_action_merged (servers : List CodeActionServer) :
    Except String (List CodeActionOrCommandItem) :=
  aggregate (servers.map code_action_future)

/-- What the final editor callback does with the merged list (lsp.rs lines
889-900): a failed aggregation propagates as a job failure; an empty merged
list reports "No code actions available" and pushes no menu; otherwise the
menu is pushed with the merged list. -/
inductive CodeActionUiOutcome where
  | job_failure (e : String)
  | status_error (msg : String)
  | menu (actions : List CodeActionOrCommandItem)
deriving DecidableEq

/-- The terminal callback of code_action. -/
def code_action_ui (merged : Except String (List CodeActionOrCommandItem)) :
    CodeActionUiOutcome :=
  match merged with
  | Except.error e => CodeActionUiOutcome.job_failure e
  | Except.ok actions =>
    if actions.isEmpty then CodeActionUiOutcome.status_error "No code actions available"
    else CodeActionUiOutcome.menu actions

/-- Category function as the specification words it, for claim C6: 0 for a
kind whose top-level dot-delimited component is quickfix; for top-level
component refactor, rank the second component extract(1), inline(2),
rewrite(3), move(4), surround(5), anything else 7; 6 for top-level component
source; 7 for any other top-level component, for an action without a kind, and
for a bare command. -/
def spec_action_category (action : CodeActionOrCommand) : Nat :=
  match action with
  | CodeActionOrCommand.codeAction _ (some kind) _ _ _ =>
    let components := split_dot kind
    let top := components.getD 0 ""
    if top = "quickfix" then 0
    else if top = "refactor" then
      let sub := components.getD 1 ""
      if sub = "extract" then 1
      else if sub = "inline" then 2
      else if sub = "rewrite" then 3
      else if sub = "move" then 4
      else if sub = "surround" then 5
      else 7
    else if top = "source" then 6
    else 7
  | _ => 7

/-! ### Document symbols: the nested-to-flat conversion of symbol_picker -/

/-- lsp::DocumentSymbol, restricted to the fields the conversion reads: name,
kind, tags, deprecated, selection_range and children.  The symbol kind is the
integer code of lsp::SymbolKind.  children is optional as in the protocol;
the code iterates it with .into_iter().flatten(), treating None as empty. -/
inductive DocumentSymbol where
  | mk (name : String) (kind : Nat) (tags : Option (List Nat))
      (deprecated : Option Bool) (selection_range : LspRange)
      (children : Option (List DocumentSymbol))

/-- lsp::Location: a document URI with a range. -/
structure LspLocation where
  uri : String
  range : LspRange
deriving DecidableEq

/-- lsp::SymbolInformation, as constructed by nested_to_flat. -/
structure SymbolInformation where
  name : String
  kind : Nat
  tags : Option (List Nat)
  deprecated : Option Bool
  location : LspLocation
  container_name : Option String
deriving DecidableEq

/-- SymbolInformationItem: a flat symbol tagged with the offset encoding of the
server that produced it and the owning document URI. -/
structure SymbolInformationItem where
  symbol : SymbolInformation
  offset_encoding : OffsetEncoding
  uri : String
deriving DecidableEq

mutual

/-- symbol_picker::nested_to_flat (lsp.rs lines 288-311): push the flat record
for this node onto the accumulator, then recurse into the children in order.
The file argument is the uri of the doc identifier used for the location; uri
is the owning document URI stored on the item. -/
def nested_to_flat (list : List SymbolInformationItem) (file : String) (uri : String)
    (symbol : DocumentSymbol) (offset_encoding : OffsetEncoding) :
    List SymbolInformationItem :=
  match symbol with
  | DocumentSymbol.mk name kind tags deprecated selection_range (some cs) =>
    nested_to_flat_children
      (list ++
        [{ symbol :=
            { name := name, kind := kind, tags := tags, deprecated := deprecated,
              location := { uri := file, range := selection_range },
              container_name := none },
           offset_encoding := offset_encoding, uri := uri }])
      file uri cs offset_encoding
  | DocumentSymbol.mk name kind tags deprecated selection_range none =>
    nested_to_flat_children
      (list ++
        [{ symbol :=
            { name := name, kind := kind, tags := tags, deprecated := deprecated,
              location := { uri := file, range := selection_range },
              container_name := none },
           offset_encoding := offset_encoding, uri := uri }])
      file uri [] offset_encoding
termination_by sizeOf symbol

/-- The  for child in symbol.children.into_iter().flatten()  loop. -/
def nested_to_flat_children (list : List SymbolInformationItem) (file : String)
    (uri : String) (children : List DocumentSymbol)
    (offset_encoding : OffsetEncoding) : List SymbolInformationItem :=
  match children with
  | [] => list
  | c :: cs =>
    nested_to_flat_children (nested_to_flat list file uri c offset_encoding)
      file uri cs offset_encoding
termination_by sizeOf children

end

mutual

/-- Pre-order traversal of a symbol tree, as the specification words it:
the parent first, then the subtrees of the children in their original order. -/
def preorder_sym (s : DocumentSymbol) : List DocumentSymbol :=
  match s with
  | DocumentSymbol.mk _ _ _ _ _ (some cs) => s :: preorder_children cs
  | DocumentSymbol.mk _ _ _ _ _ none => [s]
termination_by sizeOf s

/-- Pre-order traversal of a forest: concatenation of the traversals. -/
def preorder_children (l : List DocumentSymbol) : List DocumentSymbol :=
  match l with
  | [] => []
  | c :: cs => preorder_sym c ++ preorder_children cs
termination_by sizeOf l

end

/-- The flat record nested_to_flat builds for a single node: name, kind, tags
and deprecated copied from the node, the location built from the file URI and
the node's selection range, and the owning URI and encoding attached. -/
def flat_item (file : String) (uri : String) (offset_encoding : OffsetEncoding)
    (s : DocumentSymbol) : SymbolInformationItem :=
  match s with
  | DocumentSymbol.mk name kind tags deprecated selection_range _ =>
    { symbol :=
        { name := name, kind := kind, tags := tags, deprecated := deprecated,
          location := { uri := file, range := selection_range },
          container_name := none },
      offset_encoding := offset_encoding, uri := uri }

/-! ### symbol_method_picker: the terminal-width factor -/

/-- The width factor of symbol_method_picker::nested_to_flat (lsp.rs lines
430-435): terminal width 0..=80 gives 0.38, 81..=110 gives 0.4, wider gives
0.42.  The f32 constants are modelled as rationals with the same ordering. -/
def width_factor (w : Nat) : ℚ :=
  if w ≤ 80 then 38/100
  else if w ≤ 110 then 40/100
  else 42/100

/-! ### Inlay hints: window computation, cache check, response bucketing -/

/-- helix_view::document::DocumentInlayHintsId: the (first line, last line)
window identity.  Equality of this pair is the cache-validity key. -/
structure DocumentInlayHintsId where
  first_line : Nat
  last_line : Nat
deriving DecidableEq

/-- helix_core InlineAnnotation: a char index with the text shown there.
(The source type is text_annotations::InlineAnnotation.) -/
structure InlineAnnot where
  char_idx : Nat
  text : String
deriving DecidableEq

/-- helix_view::document::DocumentInlayHints: the five annotation buckets
installed together with the window identity, exactly as constructed at
lsp.rs lines 1580-1591. -/
structure DocumentInlayHints where
  id : DocumentInlayHintsId
  type_inlay_hints : List InlineAnnot
  parameter_inlay_hints : List InlineAnnot
  other_inlay_hints : List InlineAnnot
  padding_before_inlay_hints : List InlineAnnot
  padding_after_inlay_hints : List InlineAnnot
deriving DecidableEq

/-- DocumentInlayHints::empty_with_id: the five buckets empty, as installed on
an empty or missing response. -/
def DocumentInlayHints.empty_with_id (id : DocumentInlayHintsId) : DocumentInlayHints :=
  { id := id, type_inlay_hints := [], parameter_inlay_hints := [],
    other_inlay_hints := [], padding_before_inlay_hints := [],
    padding_after_inlay_hints := [] }

/-- The per-(view, document) state compute_inlay_hints_for_view reads and its
callback writes: the inlay_hints_oudated flag (the source's spelling) and the
cached annotation set of the view, if any. -/
structure DocInlayState where
  inlay_hints_oudated : Bool
  inlay_hints : Option DocumentInlayHints
deriving DecidableEq

/-- The target fetch window of compute_inlay_hints_for_view (lsp.rs lines
1472-1482): first_line is view-height lines above the first visible line
(saturating at 0), last_line is first_visible_line + view_height * 2 capped at
len_lines. -/
def target_window (view_height first_visible_line len_lines : Nat) :
    DocumentInlayHintsId :=
  { first_line := first_visible_line - view_height,
    last_line := min (first_visible_line + view_height * 2) len_lines }

/-- The fetch window as claim C1 words it: [visibleFirstLine − viewHeight,
visibleLastLine + 2 × viewHeight] clamped to [0, documentLineCount), where the
last visible line of a view of height h starting at line f is f + h − 1. -/
def claimed_window (view_height first_visible_line len_lines : Nat) :
    DocumentInlayHintsId :=
  let visible_last_line := first_visible_line + view_height - 1
  { first_line := first_visible_line - view_height,
    last_line := min (visible_last_line + 2 * view_height) (len_lines - 1) }

/-- The fetch window as amended: [visibleFirstLine − viewHeight,
visibleFirstLine + 2 × viewHeight], the lower bound clamped below at 0 and the
upper bound clamped above at documentLineCount (inclusive). -/
def amended_window (view_height first_visible_line len_lines : Nat) :
    DocumentInlayHintsId :=
  { first_line := (max 0 ((first_visible_line : Int) - (view_height : Int))).toNat,
    last_line := min (first_visible_line + 2 * view_height) len_lines }

/-- compute_inlay_hints_for_view up to the point where the fetch is issued
(lsp.rs lines 1454-1505): returns the window of the fetch it issues, or none
when no fetch happens.  has_server models the presence of a language server
with the InlayHints feature (the first early return); request_ok models
text_document_range_inlay_hints returning Some future (the last early
return).  The skip check is the literal condition of lines 1484-1488. -/
def compute_inlay_hints_for_view (has_server request_ok : Bool)
    (view_height first_visible_line len_lines : Nat) (doc : DocInlayState) :
    Option DocumentInlayHintsId :=
  if has_server = false then none
  else
    let new_doc_inlay_hints_id := target_window view_height first_visible_line len_lines
    if (!doc.inlay_hints_oudated &&
        (match doc.inlay_hints with
         | some dih => decide (dih.id = new_doc_inlay_hints_id)
         | none => false)) = true then none
    else if request_ok = false then none
    else some new_doc_inlay_hints_id

/-- lsp::InlayHintLabel: a plain string or label parts whose values are
joined. -/
inductive InlayHintLabel where
  | str (s : String)
  | parts (ps : List String)
deriving DecidableEq

/-- lsp::InlayHintKind: TYPE or PARAMETER; any other (or absent) kind buckets
as "other". -/
inductive InlayHintKind where
  | type
  | parameter
deriving DecidableEq

/-- lsp::InlayHint, restricted to the fields the callback reads. -/
structure InlayHint where
  position : LspPos
  label : InlayHintLabel
  kind : Option InlayHintKind
  padding_left : Option Bool
  padding_right : Option Bool
deriving DecidableEq

/-- The label text of a hint: the string itself, or the concatenation of the
part values. -/
def inlay_hint_label_text (label : InlayHintLabel) : String :=
  match label with
  | InlayHintLabel.str s => s
  | InlayHintLabel.parts ps => String.join ps

/-- Lexicographic order on positions (the derived Ord of lsp::Position), used
by hints.sort_unstable_by_key(|h| h.position). -/
def inlay_hint_pos_le (a b : InlayHint) : Prop :=
  a.position.line < b.position.line ∨
    (a.position.line = b.position.line ∧ a.position.character ≤ b.position.character)

instance : DecidableRel inlay_hint_pos_le :=
  fun a b => inferInstanceAs
    (Decidable (a.position.line < b.position.line ∨
      (a.position.line = b.position.line ∧ a.position.character ≤ b.position.character)))

/-- The five bucket accumulators of the response loop. -/
structure HintBuckets where
  padding_before_inlay_hints : List InlineAnnot
  type_inlay_hints : List InlineAnnot
  parameter_inlay_hints : List InlineAnnot
  other_inlay_hints : List InlineAnnot
  padding_after_inlay_hints : List InlineAnnot
deriving DecidableEq

/-- The empty buckets. -/
def HintBuckets.empty : HintBuckets :=
  { padding_before_inlay_hints := [], type_inlay_hints := [],
    parameter_inlay_hints := [], other_inlay_hints := [],
    padding_after_inlay_hints := [] }

/-- One iteration of the  for hint in hints  loop, for a hint whose position
mapped to char_idx: push the left padding, the labelled annotation into the
bucket selected by the kind, and the right padding. -/
def push_hint (b : HintBuckets) (h : InlayHint) (char_idx : Nat) : HintBuckets :=
  let label := inlay_hint_label_text h.label
  let b :=
    if h.padding_left = some true then
      { b with padding_before_inlay_hints :=
          b.padding_before_inlay_hints ++ [{ char_idx := char_idx, text := " " }] }
    else b
  let b :=
    match h.kind with
    | some InlayHintKind.type =>
      { b with type_inlay_hints := b.type_inlay_hints ++ [{ char_idx := char_idx, text := label }] }
    | some InlayHintKind.parameter =>
      { b with parameter_inlay_hints := b.parameter_inlay_hints ++ [{ char_idx := char_idx, text := label }] }
    | none =>
      { b with other_inlay_hints := b.other_inlay_hints ++ [{ char_idx := char_idx, text := label }] }
  if h.padding_right = some true then
    { b with padding_after_inlay_hints :=
        b.padding_after_inlay_hints ++ [{ char_idx := char_idx, text := " " }] }
  else b

/-- The  for hint in hints  loop (lsp.rs lines 1543-1578): a hint whose
position fails to map into document-offset space is skipped individually
(continue); every other hint is pushed. -/
def hint_loop (lsp_pos_to_pos : LspPos → Option Nat) :
    List InlayHint → HintBuckets → HintBuckets
  | [], b => b
  | h :: rest, b =>
    match lsp_pos_to_pos h.position with
    | none => hint_loop lsp_pos_to_pos rest b
    | some char_idx => hint_loop lsp_pos_to_pos rest (push_hint b h char_idx)

/-- The non-empty-response path of the callback: sort the hints by position,
run the loop, and assemble the five buckets with the window identity. -/
def process_inlay_hints (lsp_pos_to_pos : LspPos → Option Nat)
    (new_id : DocumentInlayHintsId) (hints : List InlayHint) : DocumentInlayHints :=
  let sorted := hints.insertionSort inlay_hint_pos_le
  let b := hint_loop lsp_pos_to_pos sorted HintBuckets.empty
  { id := new_id,
    type_inlay_hints := b.type_inlay_hints,
    parameter_inlay_hints := b.parameter_inlay_hints,
    other_inlay_hints := b.other_inlay_hints,
    padding_before_inlay_hints := b.padding_before_inlay_hints,
    padding_after_inlay_hints := b.padding_after_inlay_hints }

/-- The response callback of compute_inlay_hints_for_view (lsp.rs lines
1506-1592).  display_inlay_hints, view_exists and doc_exists model the
staleness guards at the top of the callback; when any fails the response is
discarded without touching state.  An empty or missing response installs the
empty annotation set with the new window identity; a non-empty response
installs the processed buckets.  Both install paths clear the oudated flag. -/
def apply_inlay_response (display_inlay_hints view_exists doc_exists : Bool)
    (lsp_pos_to_pos : LspPos → Option Nat) (new_id : DocumentInlayHintsId)
    (response : Option (List InlayHint)) (doc : DocInlayState) : DocInlayState :=
  if display_inlay_hints = false ∨ view_exists = false then doc
  else if doc_exists = false then doc
  else
    match response with
    | some hints =>
      if hints.isEmpty then
        { inlay_hints_oudated := false,
          inlay_hints := some (DocumentInlayHints.empty_with_id new_id) }
      else
        { inlay_hints_oudated := false,
          inlay_hints := some (process_inlay_hints lsp_pos_to_pos new_id hints) }
    | none =>
      { inlay_hints_oudated := false,
        inlay_hints := some (DocumentInlayHints.empty_with_id new_id) }

/-- One recompute trigger followed by the completion of the fetch it issued
(if any): returns the new state and the number of fetches issued (0 or 1).
The response argument is what the fetch would return. -/
def trigger_recompute (has_server request_ok display_inlay_hints view_exists doc_exists : Bool)
    (view_height first_visible_line len_lines : Nat)
    (lsp_pos_to_pos : LspPos → Option Nat) (response : Option (List InlayHint))
    (doc : DocInlayState) : DocInlayState × Nat :=
  match compute_inlay_hints_for_view has_server request_ok
      view_height first_visible_line len_lines doc with
  | none => (doc, 0)
  | some new_id =>
    (apply_inlay_response display_inlay_hints view_exists doc_exists
      lsp_pos_to_pos new_id response doc, 1)

/-- The number of labelled annotations installed: the three kind buckets,
padding aside. -/
def installed_count (dih : DocumentInlayHints) : Nat :=
  dih.type_inlay_hints.length + dih.parameter_inlay_hints.length +
    dih.other_inlay_hints.length

/-- The same count on raw buckets. -/
def bucket_count (b : HintBuckets) : Nat :=
  b.type_inlay_hints.length + b.parameter_inlay_hints.length +
    b.other_inlay_hints.length

/-! ### Concrete instances used by counterexamples and witnesses -/

/-- Node D of the specification's example tree. -/
def example_sym_D : DocumentSymbol :=
  DocumentSymbol.mk "D" 13 none none ⟨⟨3, 0⟩, ⟨3, 1⟩⟩ none

/-- Node C of the specification's example tree: C -> [D]. -/
def example_sym_C : DocumentSymbol :=
  DocumentSymbol.mk "C" 6 none none ⟨⟨2, 0⟩, ⟨2, 1⟩⟩ (some [example_sym_D])

/-- Node B of the specification's example tree. -/
def example_sym_B : DocumentSymbol :=
  DocumentSymbol.mk "B" 12 none none ⟨⟨1, 0⟩, ⟨1, 1⟩⟩ none

/-- Root A of the specification's example tree: A -> [B, C -> [D]]. -/
def example_sym_A : DocumentSymbol :=
  DocumentSymbol.mk "A" 5 none none ⟨⟨0, 0⟩, ⟨0, 1⟩⟩ (some [example_sym_B, example_sym_C])

/-- A source-category code action (category 6). -/
def example_action_source : CodeActionOrCommand :=
  CodeActionOrCommand.codeAction "Organize imports" (some "source.organizeImports")
    none none none

/-- A quickfix-category code action (category 0). -/
def example_action_quickfix : CodeActionOrCommand :=
  CodeActionOrCommand.codeAction "Fix typo" (some "quickfix.typo") none none none

/-- A disabled code action, dropped by the retain step. -/
def example_action_disabled : CodeActionOrCommand :=
  CodeActionOrCommand.codeAction "Broken" (some "quickfix.broken") none none
    (some "not applicable")

/-- A single-server response batch holding a source action and a quickfix
action (out of category order), for the C2 witness. -/
def example_batch : List (Nat × Option (List CodeActionOrCommand)) :=
  [(1, some [example_action_source, example_action_quickfix])]

/-- Three servers in attachment order, the third sharing the first one's
identity, for the C4 witness. -/
def example_servers : List (LanguageServerHandle String) :=
  [{ id := 1, batch := ["a"] }, { id := 2, batch := ["b"] }, { id := 1, batch := ["c"] }]

/-- A hint batch with one out-of-bounds position (line 50) and two valid ones
(lines 1 and 2), for the C9 witness. -/
def example_hints : List InlayHint :=
  [{ position := ⟨50, 0⟩, label := InlayHintLabel.str "bad", kind := none,
     padding_left := none, padding_right := none },
   { position := ⟨1, 0⟩, label := InlayHintLabel.str "x", kind := none,
     padding_left := none, padding_right := none },
   { position := ⟨2, 0⟩, label := InlayHintLabel.str "y", kind := none,
     padding_left := none, padding_right := none }]

/-- A position mapper that rejects positions beyond line 10, for the C9
witness. -/
def example_mapper (p : LspPos) : Option Nat :=
  if p.line ≤ 10 then some p.line else none

/-! ## Theorems -/

/-- C1: the fetch window is NOT the spec's [visibleFirstLine − viewHeight,
visibleLastLine + 2×viewHeight] clamped to [0, documentLineCount): at
view height 10, first visible line 5, 1000 document lines the code's upper
bound is 25 (2×viewHeight above the FIRST visible line), not 34; and at first
visible line 0 with 5 document lines the code's upper bound is 5 = the line
count itself, not 4 (the clamp is inclusive of documentLineCount). -/
theorem target_window_ne_claimed_window :
    target_window 10 5 1000 ≠ claimed_window 10 5 1000 ∧
    target_window 10 0 5 ≠ claimed_window 10 0 5 := by
  constructor
  · intro h
    simp [target_window, claimed_window, DocumentInlayHintsId.mk.injEq] at h
  · intro h
    simp [target_window, claimed_window, DocumentInlayHintsId.mk.injEq] at h

/-- C1 (amended): for every view and document, the fetch window equals
[visibleFirstLine − viewHeight, visibleFirstLine + 2×viewHeight], the lower
bound clamped below at 0 and the upper bound clamped above at
documentLineCount inclusive. -/
theorem target_window_eq_amended_window
    (view_height first_visible_line len_lines : Nat) :
    target_window view_height first_visible_line len_lines =
      amended_window view_height first_visible_line len_lines := by
  simp only [target_window, amended_window, DocumentInlayHintsId.mk.injEq]
  constructor
  · omega
  · omega

/-- C7: the claim that narrower displays use a larger width factor is false:
at widths 80 < 100 the factor for 80 (38/100) is NOT greater than or equal to
the factor for 100 (40/100). -/
theorem width_factor_not_antitone :
    (80 : Nat) < 100 ∧ ¬ (width_factor 100 ≤ width_factor 80) := by
  refine ⟨by norm_num, ?_⟩
  simp only [width_factor]
  norm_num

/-- C7 (amended): the width factor is monotone non-decreasing in the display
width: for any two display widths w1 ≤ w2 the factor used for w1 is at most
the factor used for w2 (narrower display budgets use a smaller or equal
proportion of the width for the label). -/
theorem width_factor_monotone (w1 w2 : Nat) (h : w1 ≤ w2) :
    width_factor w1 ≤ width_factor w2 := by
  simp only [width_factor]
  split_ifs <;> first | (exfalso; omega) | norm_num

/-- Witness for C7 (amended) at widths 80 and 100. -/
theorem width_factor_monotone_witness :
    (80 : Nat) ≤ 100 ∧ width_factor 80 ≤ width_factor 100 :=
  ⟨by norm_num, width_factor_monotone 80 100 (by norm_num)⟩

/-- C3: when every request before the first failing one succeeds, the
try_next drain surfaces that first error, whatever the results of the later
requests are, and produces no merged list at all (the already-appended
earlier batches are discarded with the accumulator). -/
theorem aggregate_first_error {ε β : Type} (pre post : List (Except ε (List β)))
    (e : ε) (h : ∀ r ∈ pre, ∃ items, r = Except.ok items) :
    aggregate (pre ++ Except.error e :: post) = Except.error e := by
  induction pre with
  | nil => simp [aggregate]
  | cons r rest ih =>
    obtain ⟨items, rfl⟩ := h r (by simp)
    have hrec := ih (fun r hr => h r (by simp [hr]))
    simp only [List.cons_append, aggregate, List.append_eq, hrec]

/-- Witness for C3: a successful first server, a failing second server and a
successful third server surface the second server's error. -/
theorem aggregate_first_error_witness :
    aggregate ([Except.ok [1], Except.error "boom", Except.ok [2]] :
        List (Except String (List Nat))) = Except.error "boom" :=
  aggregate_first_error [Except.ok [1]] [Except.ok [2]] "boom"
    (by intro r hr; simp only [List.mem_singleton] at hr; exact ⟨[1], hr⟩)

/-- C6: the category function returns 0 for a kind whose top-level
dot-delimited component is quickfix; for top-level component refactor it ranks
the sub-kind extract(1), inline(2), rewrite(3), move(4), surround(5) and any
other refactor sub-kind 7; 6 for top-level component source; and 7 for any
other top-level component, for an action with no kind, and for a bare
command — exactly the specification's category assignment. -/
theorem action_category_matches_spec (action : CodeActionOrCommand) :
    action_category action = spec_action_category action := by
  cases action with
  | command title => rfl
  | codeAction title kind diagnostics is_preferred disabled =>
    cases kind with
    | none => rfl
    | some k =>
      simp only [action_category, spec_action_category]
      generalize split_dot k = l
      rcases l with _ | ⟨c, rest⟩
      · simp
      · rcases rest with _ | ⟨d, rest2⟩ <;>
          · simp only [List.head?, List.tail, List.getD]
            split <;> simp_all <;> split <;> simp_all

/-- Strong induction on size for the mutual flattening functions: the
accumulator-style conversion appends the pre-order image of the tree (resp.
forest). -/
theorem nested_to_flat_aux : ∀ n : Nat,
    (∀ s : DocumentSymbol, sizeOf s ≤ n →
      ∀ (list : List SymbolInformationItem) (file uri : String) (enc : OffsetEncoding),
        nested_to_flat list file uri s enc =
          list ++ (preorder_sym s).map (flat_item file uri enc)) ∧
    (∀ l : List DocumentSymbol, sizeOf l ≤ n →
      ∀ (list : List SymbolInformationItem) (file uri : String) (enc : OffsetEncoding),
        nested_to_flat_children list file uri l enc =
          list ++ (preorder_children l).map (flat_item file uri enc)) := by
  intro n
  induction n using Nat.strong_induction_on with
  | _ n ih =>
    constructor
    · intro s hs list file uri enc
      match s with
      | DocumentSymbol.mk name kind tags deprecated selection_range (some cs) =>
        have hb : sizeOf (DocumentSymbol.mk name kind tags deprecated selection_range
            (some cs)) ≤ n := hs
        have hcs : sizeOf cs ≤ n - 1 := by simp at hb; omega
        have hn : 1 ≤ n := by simp at hb; omega
        rw [nested_to_flat, preorder_sym]
        rw [(ih (n - 1) (by omega)).2 cs hcs]
        simp [flat_item]
      | DocumentSymbol.mk name kind tags deprecated selection_range none =>
        rw [nested_to_flat, preorder_sym]
        simp [nested_to_flat_children, preorder_children, flat_item]
    · intro l hl list file uri enc
      match l with
      | [] => simp [nested_to_flat_children, preorder_children]
      | c :: cs =>
        have hb : sizeOf (c :: cs) ≤ n := hl
        have hc : sizeOf c ≤ n - 1 := by simp at hb; omega
        have hcs : sizeOf cs ≤ n - 1 := by simp at hb; omega
        have hn : 1 ≤ n := by simp at hb; omega
        rw [nested_to_flat_children]
        rw [(ih (n - 1) (by omega)).2 cs hcs]
        rw [(ih (n - 1) (by omega)).1 c hc]
        simp [preorder_children]

/-- C8: flattening a nested symbol tree emits the nodes in pre-order — each
parent immediately precedes its subtree, children in their original order —
and each emitted flat symbol preserves the source node's name, kind, tags,
deprecated flag and selection range, carries the document identifier URI in
its location and the owning document URI on the item (all captured by
flat_item).  In particular the example tree A -> [B, C -> [D]] flattens to
[A, B, C, D] in that order. -/
theorem nested_to_flat_is_preorder :
    (∀ (s : DocumentSymbol) (list : List SymbolInformationItem) (file uri : String)
        (enc : OffsetEncoding),
        nested_to_flat list file uri s enc =
          list ++ (preorder_sym s).map (flat_item file uri enc)) ∧
    (∀ (file uri : String) (enc : OffsetEncoding),
        nested_to_flat [] file uri example_sym_A enc =
          [flat_item file uri enc example_sym_A, flat_item file uri enc example_sym_B,
           flat_item file uri enc example_sym_C, flat_item file uri enc example_sym_D]) := by
  have main : ∀ (s : DocumentSymbol) (list : List SymbolInformationItem)
      (file uri : String) (enc : OffsetEncoding),
      nested_to_flat list file uri s enc =
        list ++ (preorder_sym s).map (flat_item file uri enc) :=
    fun s list file uri enc => (nested_to_flat_aux (sizeOf s)).1 s le_rfl list file uri enc
  refine ⟨main, ?_⟩
  intro file uri enc
  rw [main]
  simp only [example_sym_A, example_sym_B, example_sym_C, example_sym_D]
  simp [preorder_sym, preorder_children, flat_item]

/-- Pushing one mapped hint adds exactly one labelled annotation, into exactly
one of the three kind buckets. -/
theorem bucket_count_push (b : HintBuckets) (h : InlayHint) (char_idx : Nat) :
    bucket_count (push_hint b h char_idx) = bucket_count b + 1 := by
  simp only [push_hint, bucket_count]
  rcases hk : h.kind with _ | k
  · split_ifs <;> simp <;> omega
  · cases k <;> split_ifs <;> simp <;> omega

/-- The response loop installs one labelled annotation per hint whose position
maps, and none for a hint whose position does not. -/
theorem hint_loop_count (m : LspPos → Option Nat) :
    ∀ (l : List InlayHint) (b : HintBuckets),
      bucket_count (hint_loop m l b) =
        bucket_count b + l.countP (fun h => (m h.position).isSome) := by
  intro l
  induction l with
  | nil => intro b; simp [hint_loop]
  | cons h rest ih =>
    intro b
    rw [hint_loop]
    rcases hm : m h.position with _ | char_idx
    · simp [hm, ih, List.countP_cons]
    · simp [hm, ih, bucket_count_push, List.countP_cons]
      omega

/-- C9: for every response batch, each hint whose position fails to map into
document-offset space is dropped individually while every hint whose position
maps is installed: the number of labelled annotations installed equals the
number of hints whose position maps successfully (so a batch with one
out-of-bounds position and two valid ones installs exactly two annotations,
never zero). -/
theorem inlay_hint_mapping_isolation (m : LspPos → Option Nat)
    (new_id : DocumentInlayHintsId) (hints : List InlayHint) (_hne : hints ≠ []) :
    installed_count (process_inlay_hints m new_id hints) =
      hints.countP (fun h => (m h.position).isSome) := by
  have h1 := hint_loop_count m (hints.insertionSort inlay_hint_pos_le) HintBuckets.empty
  have h2 := (List.perm_insertionSort inlay_hint_pos_le hints).countP_eq
      (fun h => (m h.position).isSome)
  have key : installed_count (process_inlay_hints m new_id hints) =
      bucket_count (hint_loop m (hints.insertionSort inlay_hint_pos_le) HintBuckets.empty) :=
    rfl
  rw [key, h1, h2]
  simp [bucket_count, HintBuckets.empty]

/-- Witness for C9: a batch of three hints, one at line 50 (which the mapper
rejects) and two at lines 1 and 2 (which it maps), installs exactly the
number of successfully mapped hints. -/
theorem inlay_hint_mapping_isolation_witness :
    example_hints ≠ [] ∧
    installed_count (process_inlay_hints example_mapper ⟨0, 100⟩ example_hints) =
      example_hints.countP (fun h : InlayHint => (example_mapper h.position).isSome) :=
  ⟨by simp [example_hints],
   inlay_hint_mapping_isolation example_mapper ⟨0, 100⟩ example_hints
     (by simp [example_hints])⟩

/-- When the cached window identity equals the target window and the document
is not marked outdated, compute_inlay_hints_for_view issues no fetch. -/
theorem compute_inlay_hints_skip (has_server request_ok : Bool)
    (view_height first_visible_line len_lines : Nat) (doc : DocInlayState)
    (dih : DocumentInlayHints)
    (h1 : doc.inlay_hints_oudated = false) (h2 : doc.inlay_hints = some dih)
    (h3 : dih.id = target_window view_height first_visible_line len_lines) :
    compute_inlay_hints_for_view has_server request_ok view_height
      first_visible_line len_lines doc = none := by
  unfold compute_inlay_hints_for_view
  cases has_server
  · simp
  · simp [h1, h2, h3]

/-- When compute_inlay_hints_for_view issues a fetch, the fetched window is
the target window. -/
theorem compute_inlay_hints_some (has_server request_ok : Bool)
    (view_height first_visible_line len_lines : Nat) (doc : DocInlayState)
    (nid : DocumentInlayHintsId)
    (h : compute_inlay_hints_for_view has_server request_ok view_height
        first_visible_line len_lines doc = some nid) :
    nid = target_window view_height first_visible_line len_lines := by
  unfold compute_inlay_hints_for_view at h
  split_ifs at h <;> simp_all

/-- When the callback applies (hints displayed, view and document alive), it
installs a cached annotation set carrying the fetched window identity and
clears the outdated flag, whatever the response was. -/
theorem apply_inlay_response_sets (m : LspPos → Option Nat)
    (nid : DocumentInlayHintsId) (r : Option (List InlayHint)) (doc : DocInlayState) :
    ∃ dih : DocumentInlayHints,
      apply_inlay_response true true true m nid r doc =
        { inlay_hints_oudated := false, inlay_hints := some dih } ∧ dih.id = nid := by
  unfold apply_inlay_response
  rcases r with _ | hints
  · exact ⟨DocumentInlayHints.empty_with_id nid, by simp, rfl⟩
  · by_cases he : hints.isEmpty
    · exact ⟨DocumentInlayHints.empty_with_id nid, by simp [he], rfl⟩
    · exact ⟨process_inlay_hints m nid hints, by simp [he], rfl⟩

/-- C5: (1) if the cached window identity equals the newly computed target
window and the document's outdated flag is unset, a recompute trigger issues
no fetch and leaves the state unchanged; (2) when the fetch callback can
apply (hints displayed, view and document alive), a second consecutive
recompute trigger with the same view parameters issues no fetch — so two
consecutive triggers issue exactly as many fetches as the first alone, in
particular exactly one when the first one fetched. -/
theorem inlay_hint_cache_single_fetch :
    (∀ (has_server request_ok d v e : Bool) (vh fvl ll : Nat)
        (m : LspPos → Option Nat) (r : Option (List InlayHint))
        (doc : DocInlayState) (dih : DocumentInlayHints),
        doc.inlay_hints_oudated = false → doc.inlay_hints = some dih →
        dih.id = target_window vh fvl ll →
        trigger_recompute has_server request_ok d v e vh fvl ll m r doc = (doc, 0)) ∧
    (∀ (has_server request_ok : Bool) (vh fvl ll : Nat)
        (m : LspPos → Option Nat) (r1 r2 : Option (List InlayHint))
        (doc : DocInlayState),
        (trigger_recompute has_server request_ok true true true vh fvl ll m r2
            (trigger_recompute has_server request_ok true true true vh fvl ll m r1 doc).1).2 = 0 ∧
        ((trigger_recompute has_server request_ok true true true vh fvl ll m r1 doc).2 = 1 →
          (trigger_recompute has_server request_ok true true true vh fvl ll m r1 doc).2 +
            (trigger_recompute has_server request_ok true true true vh fvl ll m r2
              (trigger_recompute has_server request_ok true true true vh fvl ll m r1 doc).1).2 = 1)) := by
  constructor
  · intro hs rq d v e vh fvl ll m r doc dih h1 h2 h3
    simp only [trigger_recompute, compute_inlay_hints_skip hs rq vh fvl ll doc dih h1 h2 h3]
  · intro hs rq vh fvl ll m r1 r2 doc
    rcases hc : compute_inlay_hints_for_view hs rq vh fvl ll doc with _ | nid
    · constructor
      · simp [trigger_recompute, hc]
      · simp [trigger_recompute, hc]
    · have hnid := compute_inlay_hints_some hs rq vh fvl ll doc nid hc
      obtain ⟨dih, heq, hid⟩ := apply_inlay_response_sets m nid r1 doc
      have ht1 : trigger_recompute hs rq true true true vh fvl ll m r1 doc =
          (apply_inlay_response true true true m nid r1 doc, 1) := by
        simp [trigger_recompute, hc]
      have hskip := compute_inlay_hints_skip hs rq vh fvl ll
          (apply_inlay_response true true true m nid r1 doc) dih
          (by rw [heq]) (by rw [heq]) (by rw [hid, hnid])
      constructor
      · rw [ht1]
        simp [trigger_recompute, hskip]
      · intro _
        rw [ht1]
        simp [trigger_recompute, hskip]

/-- Witness for C5: with the window already cached and the document not
outdated, a trigger is a no-op with zero fetches; and starting from an
uncached, outdated document, the trigger following a completed trigger
issues zero fetches. -/
theorem inlay_hint_cache_single_fetch_witness :
    trigger_recompute true true true true true 10 0 100 example_mapper none
        { inlay_hints_oudated := false,
          inlay_hints := some (DocumentInlayHints.empty_with_id (target_window 10 0 100)) } =
      ({ inlay_hints_oudated := false,
         inlay_hints := some (DocumentInlayHints.empty_with_id (target_window 10 0 100)) }, 0) ∧
    (trigger_recompute true true true true true 10 0 100 example_mapper none
        (trigger_recompute true true true true true 10 0 100 example_mapper none
          { inlay_hints_oudated := true, inlay_hints := none }).1).2 = 0 :=
  ⟨inlay_hint_cache_single_fetch.1 true true true true true 10 0 100 example_mapper none
      _ (DocumentInlayHints.empty_with_id (target_window 10 0 100)) rfl rfl rfl,
   (inlay_hint_cache_single_fetch.2 true true 10 0 100 example_mapper none none
      { inlay_hints_oudated := true, inlay_hints := none }).1⟩

/-- When every request succeeds, the try_next drain returns the concatenation
of the batches in submission order. -/
theorem aggregate_all_ok {ε β : Type} (batches : List (List β)) :
    aggregate (batches.map (fun b => (Except.ok b : Except ε (List β)))) =
      Except.ok batches.flatten := by
  induction batches with
  | nil => simp [aggregate]
  | cons b rest ih => simp [aggregate, ih]

/-- The seen-set filter keeps no two servers with the same id, and keeps
none whose id was already seen. -/
theorem dedup_language_servers_nodup {β : Type} :
    ∀ (l : List (LanguageServerHandle β)) (seen : List Nat),
      ((dedup_language_servers seen l).map (fun s => s.id)).Nodup ∧
      ∀ n ∈ seen, n ∉ (dedup_language_servers seen l).map (fun s => s.id) := by
  intro l
  induction l with
  | nil => intro seen; simp [dedup_language_servers]
  | cons ls rest ih =>
    intro seen
    by_cases hm : ls.id ∈ seen
    · simp only [dedup_language_servers, if_pos hm]
      exact ⟨(ih seen).1, fun n hn => (ih seen).2 n hn⟩
    · simp only [dedup_language_servers, if_neg hm, List.map_cons]
      refine ⟨List.nodup_cons.mpr ⟨(ih (ls.id :: seen)).2 ls.id (by simp), (ih (ls.id :: seen)).1⟩, ?_⟩
      intro n hn
      simp only [List.mem_cons, not_or]
      exact ⟨fun hEq => hm (hEq ▸ hn), (ih (ls.id :: seen)).2 n (by simp [hn])⟩

/-- First occurrence wins: for every id not yet seen, the first server with
that id in the deduplicated list is the first server with that id in the
original list. -/
theorem dedup_language_servers_find? {β : Type} :
    ∀ (l : List (LanguageServerHandle β)) (seen : List Nat) (n : Nat), n ∉ seen →
      (dedup_language_servers seen l).find? (fun s => s.id == n) =
        l.find? (fun s => s.id == n) := by
  intro l
  induction l with
  | nil => intro seen n _; rfl
  | cons ls rest ih =>
    intro seen n hn
    by_cases hm : ls.id ∈ seen
    · rw [show dedup_language_servers seen (ls :: rest) = dedup_language_servers seen rest from by
        simp only [dedup_language_servers, if_pos hm]]
      have hne : (fun s : LanguageServerHandle β => s.id == n) ls = false := by
        simp only [beq_eq_false_iff_ne, ne_eq]
        intro hEq
        exact hn (hEq ▸ hm)
      rw [List.find?_cons_of_neg _ (by simp_all), ih seen n hn]
    · rw [show dedup_language_servers seen (ls :: rest) =
          ls :: dedup_language_servers (ls.id :: seen) rest from by
        simp only [dedup_language_servers, if_neg hm]]
      by_cases hid : ls.id = n
      · rw [List.find?_cons_of_pos _ (by simp [hid]), List.find?_cons_of_pos _ (by simp [hid])]
      · rw [List.find?_cons_of_neg _ (by simp [hid]), List.find?_cons_of_neg _ (by simp [hid])]
        refine ih (ls.id :: seen) n ?_
        simp only [List.mem_cons, not_or]
        exact ⟨fun hEq => hid hEq.symm, hn⟩

/-- The enumeration of a list is ordered by submission index. -/
theorem enumFrom_pairwise_submission_le {γ : Type} :
    ∀ (n : Nat) (l : List γ), (List.enumFrom n l).Pairwise submission_le := by
  intro n l
  induction l generalizing n with
  | nil => simp
  | cons x xs ih =>
    simp only [List.enumFrom]
    exact List.Pairwise.cons
      (fun y hy => Nat.le_of_succ_le (List.le_fst_of_mem_enumFrom hy)) (ih (n + 1))

/-- Re-emitting completion events in submission order recovers the batches in
submission order, for every completion order: any permutation of the indexed
batch list, sorted by submission index, is the indexed batch list. -/
theorem emit_submission_order_perm_enum {γ : Type} (l : List γ)
    (completed : List (Nat × γ)) (h : completed.Perm l.enum) :
    emit_submission_order completed = l := by
  haveI : IsTotal (Nat × γ) submission_le := ⟨fun a b => Nat.le_total a.1 b.1⟩
  haveI : IsTrans (Nat × γ) submission_le := ⟨fun a b c hab hbc => Nat.le_trans hab hbc⟩
  have hsorted : (completed.insertionSort submission_le).Pairwise submission_le :=
    List.sorted_insertionSort submission_le completed
  have hperm : (completed.insertionSort submission_le).Perm l.enum :=
    (List.perm_insertionSort submission_le completed).trans h
  have henum : (l.enum).Pairwise submission_le := enumFrom_pairwise_submission_le 0 l
  have hnodup : ((l.enum).map Prod.fst).Nodup := by
    rw [List.enum_map_fst]
    exact List.nodup_range _
  have hinj : ∀ a b : Nat × γ, a ∈ completed.insertionSort submission_le → b ∈ l.enum →
      submission_le a b → submission_le b a → a = b := by
    intro a b ha hb hab hba
    have ha' : a ∈ l.enum := hperm.subset ha
    exact List.inj_on_of_nodup_map hnodup ha' hb (Nat.le_antisymm hab hba)
  have heq : completed.insertionSort submission_le = l.enum :=
    List.Perm.eq_of_sorted hinj hsorted henum hperm
  unfold emit_submission_order
  rw [heq, List.enum_map_snd]

/-- C4: with every request succeeding, the deduplicated server list carries no
repeated identity and keeps the first server of each identity; the merged
output is the concatenation of the per-server batches of the deduplicated list
in submission order; and the submission-order emission is independent of the
completion order: every completion-ordered permutation of the indexed batches
re-emits as exactly the submission-ordered batch list. -/
theorem aggregation_dedup_submission_order {β : Type}
    (servers : List (LanguageServerHandle β)) :
    ((dedup_language_servers [] servers).map (fun s => s.id)).Nodup ∧
    (∀ n : Nat,
      (dedup_language_servers [] servers).find? (fun s => s.id == n) =
        servers.find? (fun s => s.id == n)) ∧
    aggregate ((dedup_language_servers [] servers).map
        (fun s => (Except.ok s.batch : Except String (List β)))) =
      Except.ok ((dedup_language_servers [] servers).map (fun s => s.batch)).flatten ∧
    (∀ completed : List (Nat × List β),
      completed.Perm ((dedup_language_servers [] servers).map (fun s => s.batch)).enum →
      emit_submission_order completed =
        (dedup_language_servers [] servers).map (fun s => s.batch)) := by
  refine ⟨(dedup_language_servers_nodup servers []).1, ?_, ?_, ?_⟩
  · intro n
    exact dedup_language_servers_find? servers [] n (by simp)
  · have h := @aggregate_all_ok String β
      ((dedup_language_servers [] servers).map (fun s => s.batch))
    simpa [List.map_map] using h
  · intro completed h
    exact emit_submission_order_perm_enum _ completed h

/-- Witness for C4: three servers with a repeated identity; the fourth
conjunct applied to the reversed completion order of the two deduplicated
batches. -/
theorem aggregation_dedup_submission_order_witness :
    ((dedup_language_servers [] example_servers).map (fun s => s.id)).Nodup ∧
    (dedup_language_servers [] example_servers).find? (fun s => s.id == 1) =
      example_servers.find? (fun s => s.id == 1) ∧
    aggregate ((dedup_language_servers [] example_servers).map
        (fun s => (Except.ok s.batch : Except String (List String)))) =
      Except.ok ((dedup_language_servers [] example_servers).map (fun s => s.batch)).flatten ∧
    emit_submission_order [(1, ["b"]), (0, ["a"])] =
      (dedup_language_servers [] example_servers).map (fun s => s.batch) :=
  ⟨(aggregation_dedup_submission_order example_servers).1,
   (aggregation_dedup_submission_order example_servers).2.1 1,
   (aggregation_dedup_submission_order example_servers).2.2.1,
   (aggregation_dedup_submission_order example_servers).2.2.2 [(1, ["b"]), (0, ["a"])]
     (by decide)⟩

/-- The sequential comparator of code_action compares exactly the three-level
keys, lexicographically, most significant first. -/
theorem action_cmp_aux (ca cb : Nat) (fa fb pa pb : Bool) :
    ((if compare ca cb ≠ Ordering.eq then compare ca cb
      else if (compare fa fb).swap ≠ Ordering.eq then (compare fa fb).swap
      else (compare pa pb).swap) ≠ Ordering.gt) ↔
    (ca < cb ∨ (ca = cb ∧ ((!fa).toNat < (!fb).toNat ∨
      ((!fa).toNat = (!fb).toNat ∧ (!pa).toNat ≤ (!pb).toNat)))) := by
  rcases Nat.lt_trichotomy ca cb with h | h | h
  · have hc : compare ca cb = Ordering.lt := Nat.compare_eq_lt.mpr h
    simp [hc, h]
  · subst h
    have hc : compare ca ca = Ordering.eq := Nat.compare_eq_eq.mpr rfl
    cases fa <;> cases fb <;> cases pa <;> cases pb <;> simp [hc] <;> decide
  · have hc : compare ca cb = Ordering.gt := Nat.compare_eq_gt.mpr h
    simp only [hc, ne_eq, reduceCtorEq, not_false_eq_true, if_true, not_true_eq_false,
      false_iff]
    omega

/-- The order induced by the comparator coincides with the lexicographic
order on the three-level sort keys. -/
theorem action_le_iff_key (a1 a2 : CodeActionOrCommand) :
    action_le a1 a2 ↔ key_le (action_sort_key a1) (action_sort_key a2) := by
  unfold action_le action_cmp key_le action_sort_key
  exact action_cmp_aux (action_category a1) (action_category a2)
    (action_fixes_diagnostics a1) (action_fixes_diagnostics a2)
    (action_preferred a1) (action_preferred a2)

/-- The key order is total. -/
theorem key_le_total (x y : Nat × Nat × Nat) : key_le x y ∨ key_le y x := by
  unfold key_le
  omega

/-- The key order is transitive. -/
theorem key_le_trans (x y z : Nat × Nat × Nat) :
    key_le x y → key_le y z → key_le x z := by
  unfold key_le
  omega

/-- The per-batch stable sort does not reorder actions of equal key: filtering
the sorted batch by any fixed key yields the same list as filtering the
retained (pre-sort) batch. -/
theorem insertionSort_filter_key (actions : List CodeActionOrCommand)
    (k : Nat × Nat × Nat) :
    (actions.insertionSort action_le).filter
        (fun a => decide (action_sort_key a = k)) =
      actions.filter (fun a => decide (action_sort_key a = k)) := by
  have hpair : (actions.filter (fun a => decide (action_sort_key a = k))).Pairwise
      action_le := by
    apply List.pairwise_of_forall_mem_list
    intro a ha b hb
    have hka := List.of_mem_filter ha
    have hkb := List.of_mem_filter hb
    simp only [decide_eq_true_eq] at hka hkb
    apply (action_le_iff_key a b).mpr
    rw [hka, hkb]
    unfold key_le
    omega
  have hsub : List.Sublist (actions.filter (fun a => decide (action_sort_key a = k)))
      (actions.insertionSort action_le) :=
    List.sublist_insertionSort hpair (List.filter_sublist actions)
  have hself : (actions.filter (fun a => decide (action_sort_key a = k))).filter
      (fun a => decide (action_sort_key a = k)) =
      actions.filter (fun a => decide (action_sort_key a = k)) :=
    List.filter_eq_self.mpr (fun a ha => (List.mem_filter.mp ha).2)
  have hsub2 : List.Sublist (actions.filter (fun a => decide (action_sort_key a = k)))
      ((actions.insertionSort action_le).filter
        (fun a => decide (action_sort_key a = k))) := by
    have := List.Sublist.filter (fun a => decide (action_sort_key a = k)) hsub
    rwa [hself] at this
  have hperm : ((actions.insertionSort action_le).filter
      (fun a => decide (action_sort_key a = k))).Perm
      (actions.filter (fun a => decide (action_sort_key a = k))) :=
    (List.perm_insertionSort action_le actions).filter _
  exact (hsub2.eq_of_length hperm.length_eq.symm).symm

/-- With every server succeeding, the merged code-action list is the
concatenation, in submission order, of the per-server processed batches. -/
theorem code_action_merged_ok (data : List (Nat × Option (List CodeActionOrCommand))) :
    code_action_merged (data.map fun d => { ls_id := d.1, response := Except.ok d.2 }) =
      Except.ok ((data.map fun d =>
        (process_code_actions d.2).map
          (fun a => { lsp_item := a, language_server_id := d.1 })).flatten) := by
  unfold code_action_merged
  induction data with
  | nil => rfl
  | cons d rest ih =>
    simp only [List.map_cons, List.flatten_cons, aggregate, code_action_future, ih]

/-- C2 (amended): with every server succeeding, the merged action list is the
concatenation in submission order of the per-server batches; EACH PER-SERVER
batch (not the merged list) is sorted by the three-level key — category, then
fixes-a-diagnostic, then preferred flag, most significant first — and the
sort is stable: filtering a processed batch by any fixed key yields the
actions of that key in their original (post-retain) order. -/
theorem code_action_per_batch_sorted
    (data : List (Nat × Option (List CodeActionOrCommand))) :
    (code_action_merged (data.map fun d => { ls_id := d.1, response := Except.ok d.2 }) =
      Except.ok ((data.map fun d =>
        (process_code_actions d.2).map
          (fun a => { lsp_item := a, language_server_id := d.1 })).flatten)) ∧
    (∀ d ∈ data, (process_code_actions d.2).Pairwise
      (fun a b => key_le (action_sort_key a) (action_sort_key b))) ∧
    (∀ d ∈ data, ∀ k : Nat × Nat × Nat,
      (process_code_actions d.2).filter (fun a => decide (action_sort_key a = k)) =
        (retained_actions d.2).filter (fun a => decide (action_sort_key a = k))) := by
  haveI : IsTotal CodeActionOrCommand action_le := ⟨fun a b => by
    rcases key_le_total (action_sort_key a) (action_sort_key b) with h | h
    · exact Or.inl ((action_le_iff_key a b).mpr h)
    · exact Or.inr ((action_le_iff_key b a).mpr h)⟩
  haveI : IsTrans CodeActionOrCommand action_le := ⟨fun a b c hab hbc =>
    (action_le_iff_key a c).mpr (key_le_trans _ _ _
      ((action_le_iff_key a b).mp hab) ((action_le_iff_key b c).mp hbc))⟩
  refine ⟨code_action_merged_ok data, ?_, ?_⟩
  · intro d _
    have hs := List.sorted_insertionSort action_le (retained_actions d.2)
    exact hs.imp (fun {a b} hab => (action_le_iff_key a b).mp hab)
  · intro d _ k
    exact insertionSort_filter_key (retained_actions d.2) k

/-- C2 counterexample: the merged list delivered to the menu is NOT globally
sorted by the three-level key: with server 1 returning one source action
(category 6) and server 2 one quickfix action (category 0), the merged list
keeps the source action first, so the earlier action's key is strictly
greater than the later one's. -/
theorem code_action_merged_not_sorted :
    code_action_merged
      [{ ls_id := 1, response := Except.ok (some [example_action_source]) },
       { ls_id := 2, response := Except.ok (some [example_action_quickfix]) }] =
      Except.ok
        [{ lsp_item := example_action_source, language_server_id := 1 },
         { lsp_item := example_action_quickfix, language_server_id := 2 }] ∧
    ¬ key_le (action_sort_key example_action_source)
        (action_sort_key example_action_quickfix) := by
  constructor
  · rfl
  · decide

/-- Witness for C2 (amended): one server returning a source action followed by
a quickfix action; the merged list is its processed batch, the batch is sorted
by key, and the key-0 filter is stable. -/
theorem code_action_per_batch_sorted_witness :
    (code_action_merged (example_batch.map fun d => { ls_id := d.1, response := Except.ok d.2 }) =
      Except.ok ((example_batch.map fun d =>
        (process_code_actions d.2).map
          (fun a => { lsp_item := a, language_server_id := d.1 })).flatten)) ∧
    (process_code_actions (1, some [example_action_source, example_action_quickfix]).2).Pairwise
      (fun a b => key_le (action_sort_key a) (action_sort_key b)) ∧
    (process_code_actions (1, some [example_action_source, example_action_quickfix]).2).filter
        (fun a => decide (action_sort_key a = (0, 1, 1))) =
      (retained_actions (1, some [example_action_source, example_action_quickfix]).2).filter
        (fun a => decide (action_sort_key a = (0, 1, 1))) :=
  ⟨(code_action_per_batch_sorted example_batch).1,
   (code_action_per_batch_sorted example_batch).2.1
     (1, some [example_action_source, example_action_quickfix]) (by simp [example_batch]),
   (code_action_per_batch_sorted example_batch).2.2
     (1, some [example_action_source, example_action_quickfix]) (by simp [example_batch])
     (0, 1, 1)⟩

/-- C10: when every server's request succeeds and the merged (post-filter)
action list is empty, the code-action callback reports the status message
"No code actions available" and pushes no menu. -/
theorem code_action_empty_reports
    (data : List (Nat × Option (List CodeActionOrCommand)))
    (h : (data.map fun d => process_code_actions d.2).flatten = []) :
    code_action_ui (code_action_merged
      (data.map fun d => { ls_id := d.1, response := Except.ok d.2 })) =
      CodeActionUiOutcome.status_error "No code actions available" := by
  rw [code_action_merged_ok data]
  have hempty : ((data.map fun d =>
      (process_code_actions d.2).map
        (fun a => ({ lsp_item := a, language_server_id := d.1 } :
          CodeActionOrCommandItem))).flatten) = [] := by
    rw [List.flatten_eq_nil_iff] at h ⊢
    intro l hl
    simp only [List.mem_map] at hl
    obtain ⟨d, hd, rfl⟩ := hl
    have hnil : process_code_actions d.2 = [] := h _ (List.mem_map_of_mem _ hd)
    simp [hnil]
  simp [code_action_ui, hempty]

/-- Witness for C10: a single server whose only action is disabled; the
post-filter merged list is empty and the outcome is the status message. -/
theorem code_action_empty_reports_witness :
    code_action_ui (code_action_merged
      ([(1, some [example_action_disabled])].map
        fun d => { ls_id := d.1, response := Except.ok d.2 })) =
      CodeActionUiOutcome.status_error "No code actions available" :=
  code_action_empty_reports [(1, some [example_action_disabled])] (by rfl)

end HelixLsp
